import Mathlib

/-!
Verification development for the `ep_media_upload` media-access gateway
(`src/index.js`).  The pure request-validation / access-control /
key-derivation pipeline is shallowly embedded below; external collaborators
(the SecurityManager "Access Oracle", the AWS SDK "Signer", the system
clock, and `randomUUID`) are modelled as explicit parameters.
All strings involved are ASCII, so JavaScript's UTF-16 `length` and
Lean's codepoint `String.length` agree on every input we reason about.
-/

/-! ## Character classes (mirroring the regexes of `src/index.js`) -/

/-- Hex digit as matched by `[a-f0-9]` under the `/i` flag. -/
def isHexDigitCI (c : Char) : Bool :=
  ('0' ≤ c && c ≤ '9') || ('a' ≤ c && c ≤ 'f') || ('A' ≤ c && c ≤ 'F')

/-- Alphanumeric as matched by `[a-z0-9]` under the `/i` flag. -/
def isAlnumCI (c : Char) : Bool :=
  ('0' ≤ c && c ≤ '9') || ('a' ≤ c && c ≤ 'z') || ('A' ≤ c && c ≤ 'Z')

/-- JavaScript regex `\w`: `[A-Za-z0-9_]`. -/
def isWordChar (c : Char) : Bool :=
  ('0' ≤ c && c ≤ '9') || ('a' ≤ c && c ≤ 'z') || ('A' ≤ c && c ≤ 'Z') || c = '_'

/-- Does the list contain two consecutive dots (the `includes('..')` check)? -/
def hasDotDot : List Char → Bool
  | [] => false
  | [_] => false
  | a :: b :: t => (a = '.' && b = '.') || hasDotDot (b :: t)

/-! ## `path.extname` (Node.js, POSIX) and `getValidExtension`

`getValidExtension` in `src/index.js` delegates to the platform function
`path.extname`.  Its documented behaviour: take the final slash-separated
component of the path (ignoring trailing slashes); the extension runs from
the last `.` of that component to its end; if the component has no `.`,
or its only `.` is its leading character (dotfiles), or the component is
exactly `..`, the extension is empty. -/

/-- Core of `path.extname`, acting on the *reversed* final path component:
split at the component's last dot (the reversed component's first dot). -/
def extnameCore (compRev : List Char) : List Char :=
  if compRev = ['.', '.'] then []
  else
    match compRev.dropWhile (· ≠ '.') with
    | [] => []            -- no dot in the component
    | [_] => []           -- the only dot is the component's first character
    | _ :: _ :: _ => '.' :: (compRev.takeWhile (· ≠ '.')).reverse

/-- Node.js `path.extname` (POSIX), on the character list of the path.
Computed on the reversed list: strip trailing slashes, take the final
component, then split at the component's last dot. -/
def extnameData (p : List Char) : List Char :=
  extnameCore ((p.reverse.dropWhile (· = '/')).takeWhile (· ≠ '/'))

/-- `getValidExtension` from `src/index.js`: `path.extname`, reject empty
or bare-dot results, strip the leading dot, lowercase. -/
def getValidExtension (filename : String) : Option String :=
  let ext := extnameData filename.data
  if ext = [] || ext = ['.'] then none
  else some (String.mk ((ext.drop 1).map Char.toLower))

/-! ## MIME validation (`EXTENSION_MIME_MAP`, `isValidMimeForExtension`) -/

/-- The static extension → acceptable-MIME-types table of `src/index.js`. -/
def EXTENSION_MIME_MAP : List (String × List String) :=
  [ ("pdf", ["application/pdf"]),
    ("doc", ["application/msword"]),
    ("docx", ["application/vnd.openxmlformats-officedocument.wordprocessingml.document"]),
    ("xls", ["application/vnd.ms-excel"]),
    ("xlsx", ["application/vnd.openxmlformats-officedocument.spreadsheetml.sheet"]),
    ("ppt", ["application/vnd.ms-powerpoint"]),
    ("pptx", ["application/vnd.openxmlformats-officedocument.presentationml.presentation"]),
    ("txt", ["text/plain"]),
    ("rtf", ["application/rtf", "text/rtf"]),
    ("csv", ["text/csv", "text/plain", "application/csv"]),
    ("jpg", ["image/jpeg"]),
    ("jpeg", ["image/jpeg"]),
    ("png", ["image/png"]),
    ("gif", ["image/gif"]),
    ("webp", ["image/webp"]),
    ("bmp", ["image/bmp"]),
    ("svg", ["image/svg+xml"]),
    ("mp3", ["audio/mpeg", "audio/mp3"]),
    ("wav", ["audio/wav", "audio/wave", "audio/x-wav", "audio/vnd.wave"]),
    ("ogg", ["audio/ogg"]),
    ("m4a", ["audio/mp4", "audio/x-m4a"]),
    ("flac", ["audio/flac"]),
    ("mp4", ["video/mp4"]),
    ("mov", ["video/quicktime"]),
    ("avi", ["video/x-msvideo"]),
    ("mkv", ["video/x-matroska"]),
    ("webm", ["video/webm"]),
    ("zip", ["application/zip", "application/x-zip-compressed"]),
    ("rar", ["application/vnd.rar", "application/x-rar-compressed"]),
    ("7z", ["application/x-7z-compressed"]),
    ("tar", ["application/x-tar"]),
    ("gz", ["application/gzip", "application/x-gzip"]) ]

/-- Association-list lookup: the *own* properties of a JS object literal. -/
def assocLookup {α : Type} (m : List (String × α)) (k : String) : Option α :=
  match m.find? (fun p => p.1 = k) with
  | some p => some p.2
  | none => none

/-- The property names of `Object.prototype`: bracket access on a plain
object literal consults the prototype chain, so these keys are "found"
(with a truthy, non-array, non-string value) even though the literal has
no such own property. -/
def OBJECT_PROTOTYPE_KEYS : List String :=
  [ "constructor", "__proto__", "hasOwnProperty", "isPrototypeOf",
    "propertyIsEnumerable", "toLocaleString", "toString", "valueOf",
    "__defineGetter__", "__defineSetter__", "__lookupGetter__", "__lookupSetter__" ]

/-- Result of a JS bracket access `obj[k]` on an object literal: an own
property's value, a truthy `Object.prototype` hit, or `undefined`. -/
inductive JsLookup (α : Type) : Type
  | own (a : α) : JsLookup α
  | protoHit : JsLookup α
  | miss : JsLookup α
deriving DecidableEq, Repr

/-- JS bracket access `obj[k]` on an object literal whose own values are
all truthy (every entry of the tables below is a non-empty array/string). -/
def jsGet {α : Type} (m : List (String × α)) (k : String) : JsLookup α :=
  match assocLookup m k with
  | some a => JsLookup.own a
  | none => if OBJECT_PROTOTYPE_KEYS.contains k then JsLookup.protoHit else JsLookup.miss

/-- ASCII lowercasing, `toLowerCase()` on the strings in play. -/
def lowerAscii (s : String) : String :=
  String.mk (s.data.map Char.toLower)

/-- JavaScript `trim()` whitespace (the ASCII part, which is all our
inputs can contain). -/
def isJsSpace (c : Char) : Bool :=
  c = ' ' || c = '\t' || c = '\n' || c = '\r' || c = Char.ofNat 11 || c = Char.ofNat 12

/-- `trim()`: strip whitespace from both ends. -/
def jsTrim (l : List Char) : List Char :=
  ((l.dropWhile isJsSpace).reverse.dropWhile isJsSpace).reverse

/-- `mimeType.toLowerCase().split(';')[0].trim()` from `src/index.js`
(`split(';')[0]` is the prefix before the first `;`). -/
def normalizeMime (mimeType : String) : String :=
  String.mk (jsTrim ((mimeType.data.map Char.toLower).takeWhile (· ≠ ';')))

/-- `isValidMimeForExtension` from `src/index.js`.  The JS falsiness test
`!extension || !mimeType` is, for string arguments, an emptiness test.
`EXTENSION_MIME_MAP[extension.toLowerCase()]` is a prototype-chain bracket
access: an `Object.prototype` hit is truthy but has no `.some` method, so
the function throws a TypeError there — modelled as `none`; a normal
return `b` is `some b`. -/
def isValidMimeForExtension (extension mimeType : String) : Option Bool :=
  if extension = "" || mimeType = "" then some false
  else
    match jsGet EXTENSION_MIME_MAP (lowerAscii extension) with
    | JsLookup.miss => some true
    | JsLookup.own allowedMimes => some (allowedMimes.contains (normalizeMime mimeType))
    | JsLookup.protoHit => none

/-! ## `isValidPadId` and `isValidFileId` -/

/-- `isValidPadId` from `src/index.js`: blocklist validation of the pad id. -/
def isValidPadId (padId : String) : Bool :=
  if padId = "" then false
  else if padId.length > 500 then false
  else if hasDotDot padId.data then false
  else if padId.data.contains (Char.ofNat 0) then false
  else if padId.data.contains '/' || padId.data.contains '\\' then false
  else if padId.data.any (fun c => c ≤ Char.ofNat 31) then false
  else true

/-- Consume exactly `n` hex digits (`[a-f0-9]{n}` with `/i`). -/
def eatHex : Nat → List Char → Option (List Char)
  | 0, l => some l
  | _ + 1, [] => none
  | n + 1, c :: t => if isHexDigitCI c then eatHex n t else none

/-- Consume one expected literal character. -/
def eatLit (c : Char) : List Char → Option (List Char)
  | [] => none
  | d :: t => if d = c then some t else none

/-- The anchored regex
`/^[a-f0-9]{8}-[a-f0-9]{4}-[a-f0-9]{4}-[a-f0-9]{4}-[a-f0-9]{12}\.[a-z0-9]+$/i`
from `isValidFileId`. -/
def fileIdRegexMatch (l : List Char) : Bool :=
  match (((((((((eatHex 8 l).bind (eatLit '-')).bind (eatHex 4)).bind
      (eatLit '-')).bind (eatHex 4)).bind (eatLit '-')).bind (eatHex 4)).bind
      (eatLit '-')).bind (eatHex 12)).bind (eatLit '.') with
  | none => false
  | some ext => !ext.isEmpty && ext.all isAlnumCI

/-- `isValidFileId` from `src/index.js`. -/
def isValidFileId (fileId : String) : Bool :=
  if fileId = "" then false
  else if fileId.length > 100 then false
  else if hasDotDot fileId.data || fileId.data.contains '/' || fileId.data.contains '\\' then false
  else if fileId.data.contains (Char.ofNat 0) then false
  else fileIdRegexMatch fileId.data

/-! ## Rate limiter (`_rateLimitCheck`) -/

def PRESIGN_RATE_WINDOW_MS : Int := 60 * 1000

def PRESIGN_RATE_MAX : Nat := 30

/-- `_rateLimitCheck` from `src/index.js`, with the per-IP store entry and
the clock made explicit.  Returns the verdict together with the store entry
after the call: on allow the pruned list plus the new timestamp is written
back; on deny the store is not written at all (the old entry survives). -/
def rateLimitCheck (stamps : List Int) (now : Int) : Bool × List Int :=
  let pruned := stamps.filter (fun t => now - PRESIGN_RATE_WINDOW_MS < t)
  if PRESIGN_RATE_MAX ≤ pruned.length then (false, stamps)
  else (true, pruned ++ [now])

/-- Run `_rateLimitCheck` over a sequence of request times, threading the
store entry; returns the final entry and the verdicts in order. -/
def runRate : List Int → List Int → List Int × List Bool
  | [], st => (st, [])
  | t :: rest, st =>
    let r := rateLimitCheck st t
    let f := runRate rest r.2
    (f.1, r.1 :: f.2)

/-! ## Key derivation (upload) and reconstruction (download) -/

/-- Upload-path key derivation (`src/index.js` lines 352–355):
`objectPath = padId + "/" + randomUUID() + "." + extName`;
`key = keyPrefix + objectPath` (the generated UUID is a parameter). -/
def deriveKey (padId keyPfx uuid extName : String) : String :=
  let safeExt := "." ++ extName
  let objectPath := padId ++ "/" ++ uuid ++ safeExt
  keyPfx ++ objectPath

/-- Download-path key reconstruction (`src/index.js` lines 467–468):
`key = keyPrefix + padId + "/" + fileId`. -/
def reconstructKey (padId keyPfx fileId : String) : String :=
  keyPfx ++ padId ++ "/" ++ fileId

/-! ## Download disposition policy (`src/index.js` lines 470–511) -/

/-- The hard-coded canonical content-type map `EXTENSION_CONTENT_TYPE`. -/
def EXTENSION_CONTENT_TYPE : List (String × String) :=
  [ ("mp3", "audio/mpeg"),
    ("wav", "audio/wav"),
    ("mp4", "video/mp4"),
    ("mov", "video/quicktime"),
    ("webm", "video/webm"),
    ("ogg", "audio/ogg"),
    ("m4a", "audio/mp4"),
    ("pdf", "application/pdf") ]

/-- The `fileId.replace(/[^\w\-_.]/g, '_')` header-filename sanitizer. -/
def sanitizeFilename (s : String) : String :=
  String.mk (s.data.map (fun c =>
    if isWordChar c || c = '-' || c = '_' || c = '.' then c else '_'))

/-- `shouldOpenInline` from the download handler: the file extension is
present and appears (case-insensitively) in the configured inline set
(`settings.ep_media_upload?.inlineExtensions || []`). -/
def shouldOpenInline (fileId : String) (inlineExtensions : Option (List String)) : Bool :=
  match getValidExtension fileId with
  | none => false
  | some fe => ((inlineExtensions.getD []).map lowerAscii).contains (lowerAscii fe)

/-- A `ResponseContentType` override as the download handler can set it:
either a canonical string from `EXTENSION_CONTENT_TYPE`, or — when the
lowercased extension collides with an `Object.prototype` property name —
the truthy prototype value itself (a function/object, not a string). -/
inductive ContentTypeOverride : Type
  | canonical (ct : String) : ContentTypeOverride
  | protoObject : ContentTypeOverride
deriving DecidableEq, Repr

/-- The download handler's response-shaping decision: the
`ResponseContentDisposition` string and the optional
`ResponseContentType` override handed to the Signer.  Line 509 guards the
override by the truthiness of the bracket access
`EXTENSION_CONTENT_TYPE[fileExtension.toLowerCase()]`, which is truthy
both for the eight own entries and for `Object.prototype` hits. -/
def downloadDisposition (fileId : String) (inlineExtensions : Option (List String)) :
    String × Option ContentTypeOverride :=
  let filename := sanitizeFilename fileId
  let disposition :=
    if shouldOpenInline fileId inlineExtensions then
      "inline; filename=\"" ++ filename ++ "\""
    else
      "attachment; filename=\"" ++ filename ++ "\""
  let ctype :=
    if shouldOpenInline fileId inlineExtensions then
      match getValidExtension fileId with
      | some fe =>
        match jsGet EXTENSION_CONTENT_TYPE (lowerAscii fe) with
        | JsLookup.own ct => some (ContentTypeOverride.canonical ct)
        | JsLookup.protoHit => some ContentTypeOverride.protoObject
        | JsLookup.miss => none
      | none => none
    else none
  (disposition, ctype)

/-! ## The two request handlers

The handlers of `expressCreateServer` are embedded as pure functions from
the request plus an environment (oracle outcome, SDK/oracle availability,
settings, rate-limiter entry, clock, generated UUID, signer outcome) to an
HTTP response paired with the trace of external calls made, in order.
Logging is not modelled.  A JS `undefined`/missing value is `none`; for
string-typed config fields the code only ever tests JS falsiness, under
which a missing field and `""` behave identically, so those are plain
strings with `""` for "absent". -/

/-- Outcome of `securityManager.checkAccess` (the Access Oracle). -/
inductive AccessOutcome : Type
  | grant : AccessOutcome
  | deny : AccessOutcome          -- `accessStatus !== 'grant'`
  | error : AccessOutcome         -- `checkAccess` threw
deriving DecidableEq, Repr

/-- External calls a handler can make, in trace order. -/
inductive Ev : Type
  | oracle : Ev                   -- `securityManager.checkAccess`
  | rate : Ev                     -- `_rateLimitCheck`
  | sign : Ev                     -- `getSignedUrl`
deriving DecidableEq, Repr

/-- `settings.ep_media_upload.storage`. -/
structure StorageConfig : Type where
  typ : String
  bucket : String
  region : String
  keyPfx : String                 -- `keyPrefix || ''`
  expires : Nat                   -- 0 models JS-falsy (absent); `expires || 600`
  downloadExpires : Nat           -- `downloadExpires || 300`
deriving DecidableEq, Repr

/-- The slice of `settings.ep_media_upload` the handlers read. -/
structure PluginSettings : Type where
  storage : Option StorageConfig
  fileTypes : Option (List String)          -- present and an array, or absent
  inlineExtensions : Option (List String)
deriving DecidableEq, Repr

/-- Signer outcome for the download path (`getSignedUrl` / S3). -/
inductive SignOutcome : Type
  | ok : SignOutcome
  | noSuchKey : SignOutcome       -- error with name/Code 'NoSuchKey'
  | failure : SignOutcome         -- any other exception
deriving DecidableEq, Repr

/-- Environment of one request: everything the handler reads besides the
request itself. -/
structure Env : Type where
  smAvailable : Bool              -- SecurityManager require() succeeded
  sdkAvailable : Bool             -- S3Client/commands/getSignedUrl present
  access : AccessOutcome
  cfg : PluginSettings
  rateStamps : List Int           -- this caller's store entry
  now : Int
  uuid : String                   -- randomUUID() result
  signOutcome : SignOutcome
deriving DecidableEq, Repr

/-- HTTP response: status plus the `error` field of the JSON body (none on
success), plus the S3 key bound into the signer call when one was made. -/
structure HResp : Type where
  status : Nat
  error : Option String
  key : Option String
deriving DecidableEq, Repr

/-- JS falsiness of an optional string query parameter. -/
def strFalsy : Option String → Bool
  | none => true
  | some s => s = ""

/-- The upload (s3_presign) handler, `src/index.js` lines 268–392.
`name`/`type` are the query parameters. -/
def uploadHandler (padId : String) (name type : Option String) (env : Env) :
    HResp × List Ev :=
  if !isValidPadId padId then (⟨400, some "Invalid pad ID", none⟩, [])
  else if !env.smAvailable then (⟨500, some "Security module unavailable", none⟩, [])
  else
    match env.access with
    | .deny => (⟨403, some "Access denied to this pad", none⟩, [.oracle])
    | .error => (⟨500, some "Access verification failed", none⟩, [.oracle])
    | .grant =>
      if !(rateLimitCheck env.rateStamps env.now).1 then
        (⟨429, some "Too many presign requests", none⟩, [.oracle, .rate])
      else
        match env.cfg.storage with
        | none => (⟨400, some "s3_presigned storage not configured", none⟩, [.oracle, .rate])
        | some storageCfg =>
          if storageCfg.typ ≠ "s3_presigned" then
            (⟨400, some "s3_presigned storage not configured", none⟩, [.oracle, .rate])
          else if !env.sdkAvailable then
            (⟨500, some "AWS SDK not available on server", none⟩, [.oracle, .rate])
          else if storageCfg.bucket = "" || storageCfg.region = "" then
            (⟨500, some "Invalid S3 configuration: missing bucket or region", none⟩, [.oracle, .rate])
          else if strFalsy name || strFalsy type then
            (⟨400, some "Missing name or type query parameters", none⟩, [.oracle, .rate])
          else
            match getValidExtension (name.getD "") with
            | none => (⟨400, some "Invalid filename: missing extension", none⟩, [.oracle, .rate])
            | some extName =>
              if (match env.cfg.fileTypes with
                  | some allowedExts => !allowedExts.contains extName
                  | none => false) then
                (⟨400, some "File type not allowed", none⟩, [.oracle, .rate])
              else
                match isValidMimeForExtension extName (type.getD "") with
                | none =>
                  -- the MIME check threw (prototype-chain hit); caught at line 388
                  (⟨500, some "Failed to generate presigned URL", none⟩, [.oracle, .rate])
                | some false =>
                  (⟨400, some "MIME type does not match file extension", none⟩, [.oracle, .rate])
                | some true =>
                  let key := deriveKey padId storageCfg.keyPfx env.uuid extName
                  match env.signOutcome with
                  | .ok => (⟨200, none, some key⟩, [.oracle, .rate, .sign])
                  | _ => (⟨500, some "Failed to generate presigned URL", none⟩, [.oracle, .rate, .sign])

/-- The download handler, `src/index.js` lines 401–537.  `file` is the
`?file=` query parameter (`none` when absent, which is JS-falsy and so
rejected by `isValidFileId`). -/
def downloadHandler (padId : String) (file : Option String) (env : Env) :
    HResp × List Ev :=
  if !isValidPadId padId then (⟨400, some "Invalid pad ID", none⟩, [])
  else if !(match file with | none => false | some f => isValidFileId f) then
    (⟨400, some "Invalid file ID", none⟩, [])
  else if !env.smAvailable then (⟨500, some "Security module unavailable", none⟩, [])
  else
    match env.access with
    | .deny => (⟨403, some "Access denied to this pad", none⟩, [.oracle])
    | .error => (⟨500, some "Access verification failed", none⟩, [.oracle])
    | .grant =>
      if !(rateLimitCheck env.rateStamps env.now).1 then
        (⟨429, some "Too many download requests", none⟩, [.oracle, .rate])
      else
        match env.cfg.storage with
        | none => (⟨400, some "s3_presigned storage not configured", none⟩, [.oracle, .rate])
        | some storageCfg =>
          if storageCfg.typ ≠ "s3_presigned" then
            (⟨400, some "s3_presigned storage not configured", none⟩, [.oracle, .rate])
          else if !env.sdkAvailable then
            (⟨500, some "AWS SDK not available on server", none⟩, [.oracle, .rate])
          else if storageCfg.bucket = "" || storageCfg.region = "" then
            (⟨500, some "Invalid S3 configuration: missing bucket or region", none⟩, [.oracle, .rate])
          else
            let key := reconstructKey padId storageCfg.keyPfx (file.getD "")
            match env.signOutcome with
            | .ok => (⟨302, none, some key⟩, [.oracle, .rate, .sign])
            | .noSuchKey => (⟨404, some "File not found", none⟩, [.oracle, .rate, .sign])
            | .failure => (⟨500, some "Failed to generate download URL", none⟩, [.oracle, .rate, .sign])

/-! ## Spec-side declarative predicates (for refinement-style claims) -/

/-- Lowercase hex digit, the alphabet of `randomUUID()` output. -/
def isLowerHex (c : Char) : Bool :=
  ('0' ≤ c && c ≤ '9') || ('a' ≤ c && c ≤ 'f')

/-- Lowercase alphanumeric, the alphabet of extensions after `toLowerCase`. -/
def isLowerAlnum (c : Char) : Bool :=
  ('0' ≤ c && c ≤ '9') || ('a' ≤ c && c ≤ 'z')

/-- A group of exactly `n` hex digits. -/
def HexGroup (g : List Char) (n : Nat) : Prop :=
  g.length = n ∧ ∀ c ∈ g, isHexDigitCI c = true

/-- The strict token-dot-extension shape of the spec: 8-4-4-4-12 hyphenated
hex groups, a dot, a non-empty alphanumeric extension, total length ≤ 100. -/
def fileIdShape (s : String) : Prop :=
  s.length ≤ 100 ∧
  ∃ g1 g2 g3 g4 g5 e : List Char,
    s.data = g1 ++ ['-'] ++ g2 ++ ['-'] ++ g3 ++ ['-'] ++ g4 ++ ['-'] ++ g5 ++ ['.'] ++ e ∧
    HexGroup g1 8 ∧ HexGroup g2 4 ∧ HexGroup g3 4 ∧ HexGroup g4 4 ∧ HexGroup g5 12 ∧
    e ≠ [] ∧ ∀ c ∈ e, isAlnumCI c = true

/-- The shape of a `randomUUID()` result: 8-4-4-4-12 lowercase hex groups. -/
def uuidShape (u : String) : Prop :=
  ∃ g1 g2 g3 g4 g5 : List Char,
    u.data = g1 ++ ['-'] ++ g2 ++ ['-'] ++ g3 ++ ['-'] ++ g4 ++ ['-'] ++ g5 ∧
    g1.length = 8 ∧ g2.length = 4 ∧ g3.length = 4 ∧ g4.length = 4 ∧ g5.length = 12 ∧
    (∀ c ∈ g1 ++ g2 ++ g3 ++ g4 ++ g5, isLowerHex c = true)

/-! ## Helper lemmas -/

theorem string_eq_of_data {s t : String} (h : s.data = t.data) : s = t := by
  cases s; cases t; exact congrArg String.mk h

/-! ## Claim C5: round-trip determinism of the storage key -/

/-- Claim C5: for every resource id, configured prefix, generated token and
extension, the storage key reconstructed on the download path equals the key
derived on the upload path, and both are the pure composition
`prefix ++ resourceId ++ "/" ++ objectId` with no other inputs. -/
theorem claim_C5 (padId keyPfx uuid extName objectId : String) :
    reconstructKey padId keyPfx (uuid ++ "." ++ extName) = deriveKey padId keyPfx uuid extName ∧
    reconstructKey padId keyPfx objectId = keyPfx ++ padId ++ "/" ++ objectId ∧
    deriveKey padId keyPfx uuid extName = keyPfx ++ padId ++ "/" ++ (uuid ++ "." ++ extName) := by
  refine ⟨?_, rfl, ?_⟩ <;>
    simp [reconstructKey, deriveKey, String.append_assoc]

/-! ## Claim C4: malformed object id rejected before any external call -/

/-- Claim C4: every download request whose object id fails the strict shape
validation (including an absent `?file=` parameter, which is JS-falsy) is
answered 400 with no Access Oracle call and no Signer call. -/
theorem claim_C4 (padId : String) (file : Option String) (env : Env)
    (h : match file with | none => True | some f => isValidFileId f = false) :
    (downloadHandler padId file env).1.status = 400 ∧ (downloadHandler padId file env).2 = [] := by
  unfold downloadHandler
  cases hv : isValidPadId padId with
  | false => simp
  | true =>
    cases file with
    | none => simp
    | some f => simp_all

/-- Witness for C4 at the spec's own example input `"../../etc/passwd"`. -/
theorem claim_C4_witness :
    (downloadHandler "padA" (some "../../etc/passwd")
        ⟨true, true, .grant, ⟨none, none, none⟩, [], 0, "u", .ok⟩).1.status = 400 ∧
    (downloadHandler "padA" (some "../../etc/passwd")
        ⟨true, true, .grant, ⟨none, none, none⟩, [], 0, "u", .ok⟩).2 = [] :=
  claim_C4 "padA" (some "../../etc/passwd") ⟨true, true, .grant, ⟨none, none, none⟩, [], 0, "u", .ok⟩
    (by decide)

/-! ## Claim C1: fail-closed when the Access Oracle is unavailable -/

/-- Counterexample to C1 as stated: with the SecurityManager unavailable, a
request whose pad id fails validation is answered 400 "Invalid pad ID" —
an InvalidInput denial, not the 500 "Security module unavailable"
classification — so not *every* request terminates classified Unavailable. -/
theorem claim_C1_counterexample :
    (uploadHandler "../x" none none
        ⟨false, true, .grant, ⟨none, none, none⟩, [], 0, "u", .ok⟩).1.status = 400 ∧
    (uploadHandler "../x" none none
        ⟨false, true, .grant, ⟨none, none, none⟩, [], 0, "u", .ok⟩).1.error ≠
      some "Security module unavailable" := by
  constructor <;> decide

/-- Claim C1 (amended): when the SecurityManager is unavailable, every
upload and every download request that passes input validation terminates
500 "Security module unavailable", with no oracle call, no rate-limiter
call and no signer call — the gate never falls back to a weaker check. -/
theorem claim_C1 :
    (∀ (padId : String) (name type : Option String) (env : Env),
        isValidPadId padId = true → env.smAvailable = false →
        uploadHandler padId name type env = (⟨500, some "Security module unavailable", none⟩, [])) ∧
    (∀ (padId : String) (file : Option String) (env : Env),
        isValidPadId padId = true →
        (match file with | none => False | some f => isValidFileId f = true) →
        env.smAvailable = false →
        downloadHandler padId file env = (⟨500, some "Security module unavailable", none⟩, [])) := by
  constructor
  · intro padId name type env hpad hsm
    unfold uploadHandler
    simp [hpad, hsm]
  · intro padId file env hpad hfile hsm
    cases file with
    | none => exact absurd hfile (by simp)
    | some f =>
      unfold downloadHandler
      simp only at hfile
      simp [hpad, hfile, hsm]

/-- Witness for C1 (amended) at concrete valid inputs. -/
theorem claim_C1_witness :
    uploadHandler "padA" none none
        ⟨false, true, .grant, ⟨none, none, none⟩, [], 0, "u", .ok⟩ =
      (⟨500, some "Security module unavailable", none⟩, []) ∧
    downloadHandler "padA" (some "a1b2c3d4-e5f6-7890-abcd-ef1234567890.pdf")
        ⟨false, true, .grant, ⟨none, none, none⟩, [], 0, "u", .ok⟩ =
      (⟨500, some "Security module unavailable", none⟩, []) :=
  ⟨claim_C1.1 "padA" none none _ (by decide) rfl,
   claim_C1.2 "padA" (some "a1b2c3d4-e5f6-7890-abcd-ef1234567890.pdf") _ (by decide) (by decide) rfl⟩

/-! ## Claim C2: oracle non-grant vs oracle exception -/

/-- Counterexample to C2 as stated: on otherwise identical requests, a
policy denial is answered 403 "Access denied to this pad" while an oracle
exception is answered 500 "Access verification failed" — the two
caller-visible outcomes differ, so the response does reveal whether the
refusal was policy or internal error. -/
theorem claim_C2_counterexample :
    (uploadHandler "padA" none none
        ⟨true, true, .deny, ⟨none, none, none⟩, [], 0, "u", .ok⟩).1.status = 403 ∧
    (uploadHandler "padA" none none
        ⟨true, true, .error, ⟨none, none, none⟩, [], 0, "u", .ok⟩).1.status = 500 ∧
    (uploadHandler "padA" none none
        ⟨true, true, .deny, ⟨none, none, none⟩, [], 0, "u", .ok⟩).1 ≠
      (uploadHandler "padA" none none
        ⟨true, true, .error, ⟨none, none, none⟩, [], 0, "u", .ok⟩).1 := by
  refine ⟨by decide, by decide, by decide⟩

/-- Claim C2 (amended): a non-grant oracle result and an oracle exception
both terminate the request in a refusal immediately after the oracle call
(no rate-limiter or signer activity, no signed URL), but the caller-visible
responses differ: 403 "Access denied to this pad" for a policy denial
versus 500 "Access verification failed" for an oracle exception. -/
theorem claim_C2 :
    (∀ (padId : String) (name type : Option String) (env : Env),
        isValidPadId padId = true → env.smAvailable = true → env.access = .deny →
        uploadHandler padId name type env = (⟨403, some "Access denied to this pad", none⟩, [.oracle])) ∧
    (∀ (padId : String) (name type : Option String) (env : Env),
        isValidPadId padId = true → env.smAvailable = true → env.access = .error →
        uploadHandler padId name type env = (⟨500, some "Access verification failed", none⟩, [.oracle])) ∧
    (∀ (padId f : String) (env : Env),
        isValidPadId padId = true → isValidFileId f = true →
        env.smAvailable = true → env.access = .deny →
        downloadHandler padId (some f) env = (⟨403, some "Access denied to this pad", none⟩, [.oracle])) ∧
    (∀ (padId f : String) (env : Env),
        isValidPadId padId = true → isValidFileId f = true →
        env.smAvailable = true → env.access = .error →
        downloadHandler padId (some f) env = (⟨500, some "Access verification failed", none⟩, [.oracle])) := by
  refine ⟨?_, ?_, ?_, ?_⟩
  · intro padId name type env hpad hsm hacc
    unfold uploadHandler; simp [hpad, hsm, hacc]
  · intro padId name type env hpad hsm hacc
    unfold uploadHandler; simp [hpad, hsm, hacc]
  · intro padId f env hpad hf hsm hacc
    unfold downloadHandler; simp [hpad, hf, hsm, hacc]
  · intro padId f env hpad hf hsm hacc
    unfold downloadHandler; simp [hpad, hf, hsm, hacc]

/-- Witness for C2 (amended) at concrete inputs. -/
theorem claim_C2_witness :
    downloadHandler "padA" (some "a1b2c3d4-e5f6-7890-abcd-ef1234567890.pdf")
        ⟨true, true, .deny, ⟨none, none, none⟩, [], 0, "u", .ok⟩ =
      (⟨403, some "Access denied to this pad", none⟩, [.oracle]) :=
  claim_C2.2.2.1 "padA" "a1b2c3d4-e5f6-7890-abcd-ef1234567890.pdf" _
    (by decide) (by decide) rfl rfl

/-! ## Claim C3: position of the rate limiter in the pipeline -/

/-- Counterexample to C3 as stated: a caller already over the limit
(30 in-window timestamps) whose oracle denies gets 403 — the Access Oracle
was called and decided the response, and the rate limiter was never
consulted (the trace is `[.oracle]`), so the limiter does not run before
identity extraction and the oracle call. -/
theorem claim_C3_counterexample :
    (rateLimitCheck (List.replicate 30 0) 0).1 = false ∧
    uploadHandler "padA" none none
        ⟨true, true, .deny, ⟨none, none, none⟩, List.replicate 30 0, 0, "u", .ok⟩ =
      (⟨403, some "Access denied to this pad", none⟩, [.oracle]) := by
  refine ⟨by decide, by decide⟩

/-- Claim C3 (amended): in both handlers the external-call trace is always
a prefix of `[oracle, rate-limiter, signer]`: the rate limiter runs after
input validation and the Access Oracle call, but before any storage
configuration work and before any Signer call. -/
theorem claim_C3 (padId : String) (name type file : Option String) (env : Env) :
    ((uploadHandler padId name type env).2 = [] ∨
     (uploadHandler padId name type env).2 = [.oracle] ∨
     (uploadHandler padId name type env).2 = [.oracle, .rate] ∨
     (uploadHandler padId name type env).2 = [.oracle, .rate, .sign]) ∧
    ((downloadHandler padId file env).2 = [] ∨
     (downloadHandler padId file env).2 = [.oracle] ∨
     (downloadHandler padId file env).2 = [.oracle, .rate] ∨
     (downloadHandler padId file env).2 = [.oracle, .rate, .sign]) := by
  constructor
  · unfold uploadHandler
    repeat' split
    all_goals first
      | exact Or.inl rfl
      | exact Or.inr (Or.inl rfl)
      | exact Or.inr (Or.inr (Or.inl rfl))
      | exact Or.inr (Or.inr (Or.inr rfl))
  · unfold downloadHandler
    repeat' split
    all_goals first
      | exact Or.inl rfl
      | exact Or.inr (Or.inl rfl)
      | exact Or.inr (Or.inr (Or.inl rfl))
      | exact Or.inr (Or.inr (Or.inr rfl))

/-! ## Claim C7: sliding-window rate limiter behaviour -/

/-- If the existing entry and all request times lie within one window of
every later request, every request is allowed and each call appends its
timestamp without pruning. -/
theorem runRate_allows (times : List Int) : ∀ st : List Int,
    st.length + times.length ≤ PRESIGN_RATE_MAX →
    (∀ a ∈ st ++ times, ∀ b ∈ times, b - PRESIGN_RATE_WINDOW_MS < a) →
    runRate times st = (st ++ times, List.replicate times.length true) := by
  induction times with
  | nil => intro st _ _; simp [runRate]
  | cons t rest ih =>
    intro st hlen hwin
    have hst : ∀ a ∈ st, t - PRESIGN_RATE_WINDOW_MS < a := fun a ha =>
      hwin a (List.mem_append_left _ ha) t (List.mem_cons_self t rest)
    have hfilter : st.filter (fun a => t - PRESIGN_RATE_WINDOW_MS < a) = st :=
      List.filter_eq_self.mpr (fun a ha => by simpa using hst a ha)
    have hlt : ¬ PRESIGN_RATE_MAX ≤ st.length := by
      simp only [List.length_cons] at hlen; omega
    have hstep : rateLimitCheck st t = (true, st ++ [t]) := by
      unfold rateLimitCheck
      rw [hfilter]
      simp [hlt]
    have hrec : runRate rest (st ++ [t]) =
        ((st ++ [t]) ++ rest, List.replicate rest.length true) := by
      refine ih (st ++ [t]) ?_ ?_
      · simp only [List.length_append, List.length_cons, List.length_nil] at hlen ⊢
        omega
      · intro a ha b hb
        refine hwin a ?_ b (List.mem_cons_of_mem t hb)
        rcases List.mem_append.mp ha with h | h
        · rcases List.mem_append.mp h with h2 | h2
          · exact List.mem_append_left _ h2
          · have hat : a = t := by simpa using h2
            exact List.mem_append_right _ (hat ▸ List.mem_cons_self t rest)
        · exact List.mem_append_right _ (List.mem_cons_of_mem t h)
    unfold runRate
    rw [hstep]
    dsimp only
    rw [hrec]
    simp [List.append_assoc, List.replicate_succ]

/-- Claim C7: starting from an empty entry, N ≤ 30 requests within the
60-second trailing window are all allowed (and the stored entry is exactly
their timestamps); a further request in the same window with 30 stored
timestamps is denied and the stored entry is completely unchanged (in
particular no timestamp is recorded); once every stored timestamp has aged
out of the window, the next request from the same caller is allowed. -/
theorem claim_C7 :
    (∀ times : List Int,
        times.length ≤ PRESIGN_RATE_MAX →
        (∀ a ∈ times, ∀ b ∈ times, b - PRESIGN_RATE_WINDOW_MS < a) →
        runRate times [] = (times, List.replicate times.length true)) ∧
    (∀ (stamps : List Int) (tNext : Int),
        stamps.length = PRESIGN_RATE_MAX →
        (∀ a ∈ stamps, tNext - PRESIGN_RATE_WINDOW_MS < a) →
        rateLimitCheck stamps tNext = (false, stamps)) ∧
    (∀ (stamps : List Int) (tLater : Int),
        (∀ a ∈ stamps, a ≤ tLater - PRESIGN_RATE_WINDOW_MS) →
        rateLimitCheck stamps tLater = (true, [tLater])) := by
  refine ⟨?_, ?_, ?_⟩
  · intro times hlen hwin
    have := runRate_allows times [] (by simpa using hlen) (by simpa using hwin)
    simpa using this
  · intro stamps tNext hlen hwin
    have hfilter : stamps.filter (fun a => tNext - PRESIGN_RATE_WINDOW_MS < a) = stamps :=
      List.filter_eq_self.mpr (fun a ha => by simpa using hwin a ha)
    unfold rateLimitCheck
    rw [hfilter]
    simp [hlen]
  · intro stamps tLater hold
    have hfilter : stamps.filter (fun a => tLater - PRESIGN_RATE_WINDOW_MS < a) = [] :=
      List.filter_eq_nil_iff.mpr (fun a ha => by simpa using not_lt.mpr (hold a ha))
    unfold rateLimitCheck
    rw [hfilter]
    simp [PRESIGN_RATE_MAX]

/-- Witness for C7: thirty requests at time 0 are all allowed, the
thirty-first at time 1 (inside the window) is denied leaving the entry
unchanged, and a request at time 60000 (window elapsed) is allowed. -/
theorem claim_C7_witness :
    runRate (List.replicate 30 0) [] = (List.replicate 30 0, List.replicate 30 true) ∧
    rateLimitCheck (List.replicate 30 0) 1 = (false, List.replicate 30 0) ∧
    rateLimitCheck (List.replicate 30 0) 60000 = (true, [60000]) :=
  ⟨claim_C7.1 (List.replicate 30 0) (by decide) (by decide),
   claim_C7.2.1 (List.replicate 30 0) 1 (by decide) (by decide),
   claim_C7.2.2 (List.replicate 30 0) 60000 (by decide)⟩

/-! ## Claim C8: MIME-vs-extension validation -/

/-- Inversion: a JS bracket access yields an own value exactly when the
literal has that own property. -/
theorem jsGet_own_iff {α : Type} (m : List (String × α)) (k : String) (a : α) :
    jsGet m k = JsLookup.own a ↔ assocLookup m k = some a := by
  unfold jsGet
  cases h : assocLookup m k with
  | some b => simp [h]
  | none =>
    by_cases hc : OBJECT_PROTOTYPE_KEYS.contains k = true
    · rw [if_pos hc]
      simp
    · rw [if_neg hc]
      simp

/-- Inversion: a JS bracket access is a prototype-chain hit exactly when
the key is no own property but names an `Object.prototype` member. -/
theorem jsGet_protoHit_iff {α : Type} (m : List (String × α)) (k : String) :
    jsGet m k = JsLookup.protoHit ↔
    assocLookup m k = none ∧ OBJECT_PROTOTYPE_KEYS.contains k = true := by
  unfold jsGet
  cases h : assocLookup m k with
  | some b => simp [h]
  | none =>
    by_cases hc : OBJECT_PROTOTYPE_KEYS.contains k = true
    · simp [h, hc]
    · simp [h, hc]

/-- Counterexample to C8 as stated: for extensions absent from the static
table the claim promises `true` for *any* declared type, but (i) the empty
declared type is JS-falsy and rejected, and (ii) for the unmapped extension
"constructor" the bracket access hits `Object.prototype.constructor`
(truthy, no `.some` method), so the function throws a TypeError (`none`)
instead of returning true. -/
theorem claim_C8_counterexample :
    assocLookup EXTENSION_MIME_MAP "xyz" = none ∧
    isValidMimeForExtension "xyz" "" = some false ∧
    assocLookup EXTENSION_MIME_MAP "constructor" = none ∧
    isValidMimeForExtension "constructor" "text/plain" = none := by
  refine ⟨by decide, by decide, by decide, by decide⟩

/-- Claim C8 (amended): `txt` with declared type `text/html` is rejected,
`txt` with `text/plain` is accepted, and the declared type is normalized by
lowercasing and stripping parameters such as `; charset=...`; a *non-empty*
declared type is accepted when the (non-empty) lowercased extension is
absent from the static table *and* does not name an `Object.prototype`
member — at the colliding extensions ("constructor", "__proto__") the
prototype-chain hit makes the function throw a TypeError instead of
returning (surfaced by the handler's catch as a 500). -/
theorem claim_C8 :
    isValidMimeForExtension "txt" "text/html" = some false ∧
    isValidMimeForExtension "txt" "text/plain" = some true ∧
    isValidMimeForExtension "txt" "TEXT/PLAIN; charset=UTF-8" = some true ∧
    normalizeMime "TEXT/PLAIN; charset=UTF-8" = "text/plain" ∧
    (∀ extension mimeType : String,
        extension ≠ "" → mimeType ≠ "" →
        assocLookup EXTENSION_MIME_MAP (lowerAscii extension) = none →
        OBJECT_PROTOTYPE_KEYS.contains (lowerAscii extension) = false →
        isValidMimeForExtension extension mimeType = some true) ∧
    (∀ mimeType : String, mimeType ≠ "" →
        isValidMimeForExtension "constructor" mimeType = none ∧
        isValidMimeForExtension "__proto__" mimeType = none) := by
  refine ⟨by decide, by decide, by decide, by decide, ?_, ?_⟩
  · intro extension mimeType hext hmime hlookup hproto
    unfold isValidMimeForExtension
    rw [if_neg (by simp [hext, hmime])]
    unfold jsGet
    rw [hlookup]
    rw [if_neg (by simpa using hproto)]
  · intro mimeType hmime
    constructor <;>
      · unfold isValidMimeForExtension
        rw [if_neg (by simp [hmime])]
        rfl

/-- Witness for C8 (amended): a concrete unmapped extension is permissive;
the "constructor" extension throws. -/
theorem claim_C8_witness :
    isValidMimeForExtension "xyz" "application/octet-stream" = some true ∧
    isValidMimeForExtension "constructor" "text/plain" = none :=
  ⟨claim_C8.2.2.2.2.1 "xyz" "application/octet-stream"
      (by decide) (by decide) (by decide) (by decide),
   (claim_C8.2.2.2.2.2 "text/plain" (by decide)).1⟩

/-! ## Claim C10: disposition filename, attachment default, content-type override -/

/-- The regex class `[\w\-_.]` coincides with the spec's `[A-Za-z0-9._-]`. -/
theorem word_class_iff (c : Char) :
    (isWordChar c || c = '-' || c = '_' || c = '.') = true ↔
    (('A' ≤ c ∧ c ≤ 'Z') ∨ ('a' ≤ c ∧ c ≤ 'z') ∨ ('0' ≤ c ∧ c ≤ '9') ∨
      c = '.' ∨ c = '_' ∨ c = '-') := by
  simp [isWordChar]
  tauto

/-- Counterexample to C10's override clause as stated: the object id
`aaaaaaaa-aaaa-aaaa-aaaa-aaaaaaaaaaaa.constructor` passes strict
validation, and with inline set `["constructor"]` the truthy
`Object.prototype.constructor` hit at line 509 makes the code set a
`ResponseContentType` override although "constructor" is not in the
hard-coded canonical content-type map. -/
theorem claim_C10_counterexample :
    isValidFileId "aaaaaaaa-aaaa-aaaa-aaaa-aaaaaaaaaaaa.constructor" = true ∧
    shouldOpenInline "aaaaaaaa-aaaa-aaaa-aaaa-aaaaaaaaaaaa.constructor"
        (some ["constructor"]) = true ∧
    assocLookup EXTENSION_CONTENT_TYPE "constructor" = none ∧
    (downloadDisposition "aaaaaaaa-aaaa-aaaa-aaaa-aaaaaaaaaaaa.constructor"
        (some ["constructor"])).2 = some ContentTypeOverride.protoObject := by
  refine ⟨by decide, by decide, by decide, by decide⟩

/-- Claim C10 (amended): the Content-Disposition filename bound into the
signed GET URL is always the (validated) object id with every character
outside `[A-Za-z0-9._-]` replaced by `_` — a function of the object id
alone, never of the original upload filename; with no inline-extension set
configured the disposition is `attachment` for every object id; and a
content-type override is produced only when the disposition is `inline`
and either the lowercased extension is an own entry of the hard-coded
canonical content-type map (then the canonical string), or it collides
with an `Object.prototype` member name (then the truthy prototype value, a
non-string, leaks in as the override). -/
theorem claim_C10 :
    (∀ fileId : String,
        downloadDisposition fileId none =
          ("attachment; filename=\"" ++ sanitizeFilename fileId ++ "\"", none)) ∧
    (∀ fileId : String,
        (sanitizeFilename fileId).data =
          fileId.data.map (fun c =>
            if ('A' ≤ c ∧ c ≤ 'Z') ∨ ('a' ≤ c ∧ c ≤ 'z') ∨ ('0' ≤ c ∧ c ≤ '9') ∨
                c = '.' ∨ c = '_' ∨ c = '-' then c else '_')) ∧
    (∀ (fileId : String) (inl : Option (List String)),
        (downloadDisposition fileId inl).1 =
          (if shouldOpenInline fileId inl then "inline; filename=\""
           else "attachment; filename=\"") ++ sanitizeFilename fileId ++ "\"") ∧
    (∀ (fileId : String) (inl : Option (List String)) (ov : ContentTypeOverride),
        (downloadDisposition fileId inl).2 = some ov →
        shouldOpenInline fileId inl = true ∧
        ∃ fe, getValidExtension fileId = some fe ∧
          ((∃ ct, ov = ContentTypeOverride.canonical ct ∧
              assocLookup EXTENSION_CONTENT_TYPE (lowerAscii fe) = some ct) ∨
           (ov = ContentTypeOverride.protoObject ∧
              assocLookup EXTENSION_CONTENT_TYPE (lowerAscii fe) = none ∧
              OBJECT_PROTOTYPE_KEYS.contains (lowerAscii fe) = true))) := by
  refine ⟨?_, ?_, ?_, ?_⟩
  · intro fileId
    have hso : shouldOpenInline fileId none = false := by
      unfold shouldOpenInline
      cases getValidExtension fileId <;> simp
    simp [downloadDisposition, hso]
  · intro fileId
    unfold sanitizeFilename
    refine List.map_congr_left ?_
    intro c _
    exact if_congr (word_class_iff c) rfl rfl
  · intro fileId inl
    cases h : shouldOpenInline fileId inl <;> simp [downloadDisposition, h]
  · intro fileId inl ov hov
    unfold downloadDisposition at hov
    cases h : shouldOpenInline fileId inl with
    | false => rw [h] at hov; simp at hov
    | true =>
      rw [h] at hov
      refine ⟨rfl, ?_⟩
      cases hfe : getValidExtension fileId with
      | none => rw [hfe] at hov; simp at hov
      | some fe =>
        rw [hfe] at hov
        simp only [↓reduceIte] at hov
        refine ⟨fe, rfl, ?_⟩
        cases hj : jsGet EXTENSION_CONTENT_TYPE (lowerAscii fe) with
        | own ct =>
          rw [hj] at hov
          simp at hov
          exact Or.inl ⟨ct, hov.symm, (jsGet_own_iff _ _ _).mp hj⟩
        | protoHit =>
          rw [hj] at hov
          simp at hov
          have hp := (jsGet_protoHit_iff EXTENSION_CONTENT_TYPE (lowerAscii fe)).mp hj
          exact Or.inr ⟨hov.symm, hp.1, hp.2⟩
        | miss =>
          rw [hj] at hov
          simp at hov

/-- Witness for C10 (amended) at a concrete inline-configured media file. -/
theorem claim_C10_witness :
    shouldOpenInline "a.mp3" (some ["mp3"]) = true ∧
    ∃ fe, getValidExtension "a.mp3" = some fe ∧
      ((∃ ct, ContentTypeOverride.canonical "audio/mpeg" = ContentTypeOverride.canonical ct ∧
          assocLookup EXTENSION_CONTENT_TYPE (lowerAscii fe) = some ct) ∨
       (ContentTypeOverride.canonical "audio/mpeg" = ContentTypeOverride.protoObject ∧
          assocLookup EXTENSION_CONTENT_TYPE (lowerAscii fe) = none ∧
          OBJECT_PROTOTYPE_KEYS.contains (lowerAscii fe) = true)) :=
  claim_C10.2.2.2 "a.mp3" (some ["mp3"]) (ContentTypeOverride.canonical "audio/mpeg")
    (by decide)

/-! ## Claim C6: the object-id validator versus the strict shape -/

theorem eatHex_some : ∀ (n : Nat) (l r : List Char), eatHex n l = some r →
    ∃ g, l = g ++ r ∧ g.length = n ∧ ∀ c ∈ g, isHexDigitCI c = true := by
  intro n
  induction n with
  | zero =>
    intro l r h
    simp only [eatHex, Option.some.injEq] at h
    exact ⟨[], by simp [h], rfl, by simp⟩
  | succ m ih =>
    intro l r h
    cases l with
    | nil => simp [eatHex] at h
    | cons c t =>
      unfold eatHex at h
      by_cases hc : isHexDigitCI c = true
      · rw [if_pos hc] at h
        obtain ⟨g, hl, hlen, hhex⟩ := ih t r h
        refine ⟨c :: g, by simp [hl], by simp [hlen], ?_⟩
        intro d hd
        rcases List.mem_cons.mp hd with rfl | hd2
        · exact hc
        · exact hhex d hd2
      · rw [if_neg hc] at h
        exact absurd h (by simp)

theorem eatHex_append : ∀ (g r : List Char), (∀ c ∈ g, isHexDigitCI c = true) →
    eatHex g.length (g ++ r) = some r := by
  intro g
  induction g with
  | nil => intro r _; simp [eatHex]
  | cons c t ih =>
    intro r hhex
    have hc : isHexDigitCI c = true := hhex c (List.mem_cons_self c t)
    simp only [List.length_cons, List.cons_append]
    unfold eatHex
    rw [if_pos hc]
    exact ih r (fun d hd => hhex d (List.mem_cons_of_mem c hd))

theorem eatLit_some : ∀ (c : Char) (l r : List Char), eatLit c l = some r → l = c :: r := by
  intro c l r h
  cases l with
  | nil => simp [eatLit] at h
  | cons d t =>
    simp only [eatLit] at h
    by_cases hd : d = c
    · rw [if_pos hd] at h
      rw [hd, Option.some.inj h]
    · rw [if_neg hd] at h
      exact absurd h (by simp)

theorem eatLit_cons (c : Char) (r : List Char) : eatLit c (c :: r) = some r := by
  simp [eatLit]

theorem fileIdRegexMatch_sound (l : List Char) (h : fileIdRegexMatch l = true) :
    ∃ g1 g2 g3 g4 g5 e : List Char,
      l = g1 ++ ['-'] ++ g2 ++ ['-'] ++ g3 ++ ['-'] ++ g4 ++ ['-'] ++ g5 ++ ['.'] ++ e ∧
      HexGroup g1 8 ∧ HexGroup g2 4 ∧ HexGroup g3 4 ∧ HexGroup g4 4 ∧ HexGroup g5 12 ∧
      e ≠ [] ∧ ∀ c ∈ e, isAlnumCI c = true := by
  unfold fileIdRegexMatch at h
  cases h1 : eatHex 8 l with
  | none => rw [h1] at h; simp at h
  | some l1 =>
  rw [h1] at h
  simp only [Option.some_bind] at h
  cases h2 : eatLit '-' l1 with
  | none => rw [h2] at h; simp at h
  | some l2 =>
  rw [h2] at h
  simp only [Option.some_bind] at h
  cases h3 : eatHex 4 l2 with
  | none => rw [h3] at h; simp at h
  | some l3 =>
  rw [h3] at h
  simp only [Option.some_bind] at h
  cases h4 : eatLit '-' l3 with
  | none => rw [h4] at h; simp at h
  | some l4 =>
  rw [h4] at h
  simp only [Option.some_bind] at h
  cases h5 : eatHex 4 l4 with
  | none => rw [h5] at h; simp at h
  | some l5 =>
  rw [h5] at h
  simp only [Option.some_bind] at h
  cases h6 : eatLit '-' l5 with
  | none => rw [h6] at h; simp at h
  | some l6 =>
  rw [h6] at h
  simp only [Option.some_bind] at h
  cases h7 : eatHex 4 l6 with
  | none => rw [h7] at h; simp at h
  | some l7 =>
  rw [h7] at h
  simp only [Option.some_bind] at h
  cases h8 : eatLit '-' l7 with
  | none => rw [h8] at h; simp at h
  | some l8 =>
  rw [h8] at h
  simp only [Option.some_bind] at h
  cases h9 : eatHex 12 l8 with
  | none => rw [h9] at h; simp at h
  | some l9 =>
  rw [h9] at h
  simp only [Option.some_bind] at h
  cases h10 : eatLit '.' l9 with
  | none => rw [h10] at h; simp at h
  | some ext =>
  rw [h10] at h
  simp only [Bool.and_eq_true, Bool.not_eq_true', List.isEmpty_eq_false,
    List.all_eq_true] at h
  obtain ⟨g1, e1, n1, x1⟩ := eatHex_some 8 l l1 h1
  have d2 := eatLit_some '-' l1 l2 h2
  obtain ⟨g2, e3, n3, x3⟩ := eatHex_some 4 l2 l3 h3
  have d4 := eatLit_some '-' l3 l4 h4
  obtain ⟨g3, e5, n5, x5⟩ := eatHex_some 4 l4 l5 h5
  have d6 := eatLit_some '-' l5 l6 h6
  obtain ⟨g4, e7, n7, x7⟩ := eatHex_some 4 l6 l7 h7
  have d8 := eatLit_some '-' l7 l8 h8
  obtain ⟨g5, e9, n9, x9⟩ := eatHex_some 12 l8 l9 h9
  have d10 := eatLit_some '.' l9 ext h10
  refine ⟨g1, g2, g3, g4, g5, ext, ?_, ⟨n1, x1⟩, ⟨n3, x3⟩, ⟨n5, x5⟩, ⟨n7, x7⟩, ⟨n9, x9⟩,
    h.1, h.2⟩
  subst e1 d2 e3 d4 e5 d6 e7 d8 e9 d10
  simp [List.append_assoc]

theorem fileIdRegexMatch_build (g1 g2 g3 g4 g5 e : List Char)
    (k1 : HexGroup g1 8) (k2 : HexGroup g2 4) (k3 : HexGroup g3 4)
    (k4 : HexGroup g4 4) (k5 : HexGroup g5 12)
    (he : e ≠ []) (ha : ∀ c ∈ e, isAlnumCI c = true) :
    fileIdRegexMatch
      (g1 ++ ['-'] ++ g2 ++ ['-'] ++ g3 ++ ['-'] ++ g4 ++ ['-'] ++ g5 ++ ['.'] ++ e) = true := by
  have hrw : g1 ++ ['-'] ++ g2 ++ ['-'] ++ g3 ++ ['-'] ++ g4 ++ ['-'] ++ g5 ++ ['.'] ++ e =
      g1 ++ ('-' :: (g2 ++ ('-' :: (g3 ++ ('-' :: (g4 ++ ('-' :: (g5 ++ ('.' :: e))))))))) := by
    simp [List.append_assoc]
  have E1 : ∀ r : List Char, eatHex 8 (g1 ++ r) = some r := by
    intro r; rw [show (8 : Nat) = g1.length from k1.1.symm]; exact eatHex_append g1 r k1.2
  have E2 : ∀ r : List Char, eatHex 4 (g2 ++ r) = some r := by
    intro r; rw [show (4 : Nat) = g2.length from k2.1.symm]; exact eatHex_append g2 r k2.2
  have E3 : ∀ r : List Char, eatHex 4 (g3 ++ r) = some r := by
    intro r; rw [show (4 : Nat) = g3.length from k3.1.symm]; exact eatHex_append g3 r k3.2
  have E4 : ∀ r : List Char, eatHex 4 (g4 ++ r) = some r := by
    intro r; rw [show (4 : Nat) = g4.length from k4.1.symm]; exact eatHex_append g4 r k4.2
  have E5 : ∀ r : List Char, eatHex 12 (g5 ++ r) = some r := by
    intro r; rw [show (12 : Nat) = g5.length from k5.1.symm]; exact eatHex_append g5 r k5.2
  unfold fileIdRegexMatch
  rw [hrw]
  simp only [E1, E2, E3, E4, E5, eatLit_cons, Option.some_bind]
  simp only [he, List.all_eq_true, Bool.and_eq_true, Bool.not_eq_true', List.isEmpty_eq_false]
  exact ⟨he, ha⟩

theorem hasDotDot_two_dots : ∀ l : List Char, hasDotDot l = true → 2 ≤ l.count '.' := by
  intro l
  induction l with
  | nil => intro h; simp [hasDotDot] at h
  | cons a t ih =>
    intro h
    cases t with
    | nil => simp [hasDotDot] at h
    | cons b t2 =>
      rw [hasDotDot] at h
      simp only [Bool.or_eq_true, Bool.and_eq_true, decide_eq_true_eq] at h
      rcases h with ⟨ha, hb⟩ | h2
      · subst ha; subst hb
        simp [List.count_cons]
      · have h3 := ih h2
        simp only [List.count_cons] at h3 ⊢
        omega

theorem isValidFileId_iff (s : String) : isValidFileId s = true ↔ fileIdShape s := by
  constructor
  · intro h
    unfold isValidFileId at h
    by_cases h0 : s = ""
    · rw [if_pos h0] at h; simp at h
    rw [if_neg h0] at h
    by_cases hlen : s.length > 100
    · rw [if_pos hlen] at h; simp at h
    rw [if_neg hlen] at h
    by_cases hg : (hasDotDot s.data || s.data.contains '/' || s.data.contains '\\') = true
    · rw [if_pos hg] at h; simp at h
    rw [if_neg hg] at h
    by_cases h00 : s.data.contains (Char.ofNat 0) = true
    · rw [if_pos h00] at h; simp at h
    rw [if_neg h00] at h
    exact ⟨by omega, fileIdRegexMatch_sound s.data h⟩
  · rintro ⟨hlen, g1, g2, g3, g4, g5, e, hD, k1, k2, k3, k4, k5, he, ha⟩
    have hdotmem : '.' ∈ s.data := by rw [hD]; simp
    have hne : ¬ s = "" := by
      intro h0
      rw [h0] at hdotmem
      simp at hdotmem
    have hclass : ∀ c ∈ s.data,
        isHexDigitCI c = true ∨ c = '-' ∨ c = '.' ∨ isAlnumCI c = true := by
      intro c hc
      rw [hD] at hc
      simp only [List.mem_append, List.mem_singleton] at hc
      rcases hc with (((((((((h | h) | h) | h) | h) | h) | h) | h) | h) | h) | h
      · exact Or.inl (k1.2 c h)
      · exact Or.inr (Or.inl h)
      · exact Or.inl (k2.2 c h)
      · exact Or.inr (Or.inl h)
      · exact Or.inl (k3.2 c h)
      · exact Or.inr (Or.inl h)
      · exact Or.inl (k4.2 c h)
      · exact Or.inr (Or.inl h)
      · exact Or.inl (k5.2 c h)
      · exact Or.inr (Or.inr (Or.inl h))
      · exact Or.inr (Or.inr (Or.inr (ha c h)))
    have hnslash : '/' ∉ s.data := by
      intro hm
      rcases hclass '/' hm with h | h | h | h <;> revert h <;> decide
    have hnback : '\\' ∉ s.data := by
      intro hm
      rcases hclass '\\' hm with h | h | h | h <;> revert h <;> decide
    have hnnul : Char.ofNat 0 ∉ s.data := by
      intro hm
      rcases hclass (Char.ofNat 0) hm with h | h | h | h <;> revert h <;> decide
    have hcount : s.data.count '.' = 1 := by
      have cg : ∀ g : List Char, (∀ c ∈ g, isHexDigitCI c = true) → g.count '.' = 0 := by
        intro g hg
        exact List.count_eq_zero.mpr (fun hm => absurd (hg '.' hm) (by decide))
      have ce : e.count '.' = 0 :=
        List.count_eq_zero.mpr (fun hm => absurd (ha '.' hm) (by decide))
      rw [hD]
      simp only [List.count_append, cg g1 k1.2, cg g2 k2.2, cg g3 k3.2, cg g4 k4.2,
        cg g5 k5.2, ce]
      decide
    have hnd : hasDotDot s.data = false := by
      cases hdd : hasDotDot s.data with
      | false => rfl
      | true =>
        have := hasDotDot_two_dots s.data hdd
        omega
    unfold isValidFileId
    rw [if_neg hne]
    rw [if_neg (by omega : ¬ s.length > 100)]
    rw [if_neg (by simp [hnd, hnslash, hnback] : ¬ (hasDotDot s.data ||
        s.data.contains '/' || s.data.contains '\\') = true)]
    rw [if_neg (by simp [hnnul] : ¬ s.data.contains (Char.ofNat 0) = true)]
    rw [hD]
    exact fileIdRegexMatch_build g1 g2 g3 g4 g5 e k1 k2 k3 k4 k5 he ha

theorem lowerHex_hexCI (c : Char) (h : isLowerHex c = true) : isHexDigitCI c = true := by
  simp only [isLowerHex, Bool.or_eq_true, Bool.and_eq_true, decide_eq_true_eq] at h
  simp only [isHexDigitCI, Bool.or_eq_true, Bool.and_eq_true, decide_eq_true_eq]
  tauto

theorem lowerAlnum_alnumCI (c : Char) (h : isLowerAlnum c = true) : isAlnumCI c = true := by
  simp only [isLowerAlnum, Bool.or_eq_true, Bool.and_eq_true, decide_eq_true_eq] at h
  simp only [isAlnumCI, Bool.or_eq_true, Bool.and_eq_true, decide_eq_true_eq]
  tauto

/-- Counterexample to C6 as stated: the upload path accepts the filename
"x.t-t" (extension "t-t": lowercase, unmapped, allow-list absent), so the
deriver produces the object id `<uuid>.t-t` — which `isValidFileId`
rejects, because '-' is not alphanumeric.  Not every deriver-produced id
(randomUUID + dot + lowercase extension) validates. -/
theorem claim_C6_counterexample :
    getValidExtension "x.t-t" = some "t-t" ∧
    isValidMimeForExtension "t-t" "application/octet-stream" = some true ∧
    isValidFileId ("00000000-0000-0000-0000-000000000000" ++ "." ++ "t-t") = false := by
  refine ⟨by decide, by decide, by decide⟩

/-- Claim C6 (amended): `isValidFileId` accepts exactly the strings of the
strict token-dot-extension shape (8-4-4-4-12 hex groups, a dot, a
non-empty alphanumeric extension, length ≤ 100) — in particular it returns
false for every string outside that shape — and it returns true for every
deriver-produced object id whose lowercase extension consists only of
characters `[a-z0-9]` and has length ≤ 63 (so that the id fits in 100). -/
theorem claim_C6 :
    (∀ s : String, isValidFileId s = true ↔ fileIdShape s) ∧
    (∀ u e : String, uuidShape u → e.data ≠ [] →
        (∀ c ∈ e.data, isLowerAlnum c = true) → e.length ≤ 63 →
        isValidFileId (u ++ "." ++ e) = true) := by
  refine ⟨isValidFileId_iff, ?_⟩
  rintro u e ⟨g1, g2, g3, g4, g5, hU, n1, n2, n3, n4, n5, hhex⟩ hne halnum hlen
  have hdata : (u ++ "." ++ e).data = u.data ++ ['.'] ++ e.data := by
    simp [String.data_append]
  have hulen : u.data.length = 36 := by
    rw [hU]
    simp [List.length_append, n1, n2, n3, n4, n5]
  rw [isValidFileId_iff]
  constructor
  · show (u ++ "." ++ e).length ≤ 100
    have h1 : (u ++ "." ++ e).length = (u ++ "." ++ e).data.length := rfl
    have h2 : e.length = e.data.length := rfl
    rw [h1, hdata]
    simp only [List.length_append, List.length_cons, List.length_nil, hulen]
    omega
  · refine ⟨g1, g2, g3, g4, g5, e.data, ?_, ?_, ?_, ?_, ?_, ?_, hne,
      fun c hc => lowerAlnum_alnumCI c (halnum c hc)⟩
    · rw [hdata, hU]
    · exact ⟨n1, fun c hc => lowerHex_hexCI c (hhex c (by simp [hc]))⟩
    · exact ⟨n2, fun c hc => lowerHex_hexCI c (hhex c (by simp [hc]))⟩
    · exact ⟨n3, fun c hc => lowerHex_hexCI c (hhex c (by simp [hc]))⟩
    · exact ⟨n4, fun c hc => lowerHex_hexCI c (hhex c (by simp [hc]))⟩
    · exact ⟨n5, fun c hc => lowerHex_hexCI c (hhex c (by simp [hc]))⟩

/-- Witness for C6 (amended) at a concrete UUID and extension. -/
theorem claim_C6_witness :
    isValidFileId ("a1b2c3d4-e5f6-7890-abcd-ef1234567890" ++ "." ++ "pdf") = true :=
  claim_C6.2 "a1b2c3d4-e5f6-7890-abcd-ef1234567890" "pdf"
    ⟨"a1b2c3d4".data, "e5f6".data, "7890".data, "abcd".data, "ef1234567890".data,
      by decide, by decide, by decide, by decide, by decide, by decide, by decide⟩
    (by decide) (by decide) (by decide)

/-! ## Claim C9: `getValidExtension` -/

theorem dropWhile_eq_self_of_all {α : Type} (p : α → Bool) (m : List α)
    (hm : ∀ x ∈ m, p x = false) : m.dropWhile p = m := by
  cases m with
  | nil => rfl
  | cons a t =>
    have := hm a (List.mem_cons_self a t)
    rw [List.dropWhile_cons, if_neg (by simp [this])]

theorem takeWhile_eq_self_of_all {α : Type} (p : α → Bool) :
    ∀ m : List α, (∀ x ∈ m, p x = true) → m.takeWhile p = m := by
  intro m
  induction m with
  | nil => intro _; rfl
  | cons a t ih =>
    intro hm
    rw [List.takeWhile_cons, if_pos (hm a (List.mem_cons_self a t)),
      ih (fun x hx => hm x (List.mem_cons_of_mem a hx))]

theorem takeWhile_middle {α : Type} (p : α → Bool) :
    ∀ (xs : List α) (c : α) (ys : List α), (∀ x ∈ xs, p x = true) → p c = false →
      (xs ++ c :: ys).takeWhile p = xs ∧ (xs ++ c :: ys).dropWhile p = c :: ys := by
  intro xs
  induction xs with
  | nil =>
    intro c ys _ hc
    constructor
    · rw [List.nil_append, List.takeWhile_cons, if_neg (by simp [hc])]
    · rw [List.nil_append, List.dropWhile_cons, if_neg (by simp [hc])]
  | cons a t ih =>
    intro c ys hall hc
    have ha := hall a (List.mem_cons_self a t)
    have iht := ih c ys (fun x hx => hall x (List.mem_cons_of_mem a hx)) hc
    constructor
    · rw [List.cons_append, List.takeWhile_cons, if_pos ha, iht.1]
    · rw [List.cons_append, List.dropWhile_cons, if_pos ha, iht.2]

/-- Counterexample to C9 as stated: ".bashrc" contains a dot with text
after it and does not end in a bare dot, so the claim predicts extension
"bashrc"; but `path.extname` treats a leading dot of the basename as
starting a dotfile name, not an extension, so the code returns null. -/
theorem claim_C9_counterexample :
    getValidExtension ".bashrc" = none ∧
    '.' ∈ ".bashrc".data ∧
    ".bashrc".data.getLast? = some 'c' := by
  refine ⟨by decide, by decide, by decide⟩

/-- Claim C9 (amended): for every filename free of path separators,
`getValidExtension` returns `some e` exactly when the filename splits as
`a ++ "." ++ b` with `a` non-empty (a leading dot starts a dotfile name,
not an extension), `b` non-empty (no bare trailing dot) and `b` dot-free
(so the split is at the last dot), and then `e` is `b` lowercased;
otherwise it returns null. -/
theorem claim_C9 (f : String) (hslash : '/' ∉ f.data) (e : String) :
    getValidExtension f = some e ↔
    ∃ a b : String, f = a ++ "." ++ b ∧ a ≠ "" ∧ b ≠ "" ∧ '.' ∉ b.data ∧
      e = String.mk (b.data.map Char.toLower) := by
  have hds : (f.data.reverse.dropWhile (· = '/')) = f.data.reverse :=
    dropWhile_eq_self_of_all _ _ (fun x hx => by
      have hxn : x ≠ '/' := fun hxe => hslash (hxe ▸ List.mem_reverse.mp hx)
      simp [hxn])
  have hts : f.data.reverse.takeWhile (· ≠ '/') = f.data.reverse :=
    takeWhile_eq_self_of_all _ _ (fun x hx => by
      have hxn : x ≠ '/' := fun hxe => hslash (hxe ▸ List.mem_reverse.mp hx)
      simp [hxn])
  have hext : extnameData f.data = extnameCore f.data.reverse := by
    rw [extnameData, hds, hts]
  by_cases hdd : f.data.reverse = ['.', '.']
  · have hcore : extnameCore f.data.reverse = [] := by
      unfold extnameCore
      rw [if_pos hdd]
    have hnone : getValidExtension f = none := by
      simp [getValidExtension, hext, hcore]
    rw [hnone]
    constructor
    · intro h; exact absurd h (by simp)
    · rintro ⟨a, b, hf, ha, hb, hnd, hee⟩
      exfalso
      have hfd : f.data = a.data ++ '.' :: b.data := by
        rw [hf]; simp [String.data_append]
      have hrv : f.data.reverse = b.data.reverse ++ '.' :: a.data.reverse := by
        rw [hfd]; simp
      have hbne : b.data ≠ [] := fun h0 => hb (string_eq_of_data (by simp [h0]))
      cases hbr : b.data.reverse with
      | nil => exact hbne (List.reverse_eq_nil_iff.mp hbr)
      | cons x xs =>
        rw [hbr, hdd] at hrv
        have hx : x = '.' := by
          rw [List.cons_append] at hrv
          exact (List.cons.inj hrv).1.symm
        have hxb : x ∈ b.data := List.mem_reverse.mp (hbr ▸ List.mem_cons_self x xs)
        exact hnd (hx ▸ hxb)
  · cases hpost : f.data.reverse.dropWhile (· ≠ '.') with
    | nil =>
      have hnodot : '.' ∉ f.data := by
        intro hm
        have hall := List.dropWhile_eq_nil_iff.mp hpost
        have := hall '.' (List.mem_reverse.mpr hm)
        simp at this
      have hcore : extnameCore f.data.reverse = [] := by
        unfold extnameCore
        rw [if_neg hdd, hpost]
      have hnone : getValidExtension f = none := by
        simp [getValidExtension, hext, hcore]
      rw [hnone]
      constructor
      · intro h; exact absurd h (by simp)
      · rintro ⟨a, b, hf, -, -, -, -⟩
        exfalso
        apply hnodot
        have hfd : f.data = a.data ++ '.' :: b.data := by
          rw [hf]; simp [String.data_append]
        rw [hfd]; simp
    | cons c cs =>
      have hc : c = '.' := by
        have hh := List.head?_dropWhile_not (· ≠ '.') f.data.reverse
        rw [hpost] at hh
        simpa using hh
      subst hc
      cases cs with
      | nil =>
        have hcore : extnameCore f.data.reverse = [] := by
          unfold extnameCore
          rw [if_neg hdd, hpost]
        have hnone : getValidExtension f = none := by
          simp [getValidExtension, hext, hcore]
        rw [hnone]
        constructor
        · intro h; exact absurd h (by simp)
        · rintro ⟨a, b, hf, ha, hb, hnd, hee⟩
          exfalso
          have hfd : f.data = a.data ++ '.' :: b.data := by
            rw [hf]; simp [String.data_append]
          have hrv2 : f.data.reverse = b.data.reverse ++ '.' :: a.data.reverse := by
            rw [hfd]; simp
          have hmid := takeWhile_middle (· ≠ '.') b.data.reverse '.' a.data.reverse
            (fun x hx => by
              have hxn : x ≠ '.' := fun hxe => hnd (hxe ▸ List.mem_reverse.mp hx)
              simp [hxn])
            (by simp)
          have h2 := hmid.2
          rw [← hrv2, hpost] at h2
          have : a.data.reverse = [] := (List.cons.inj h2).2.symm
          exact ha (string_eq_of_data (by simpa using List.reverse_eq_nil_iff.mp this))
      | cons d rest =>
        have hcore : extnameCore f.data.reverse =
            '.' :: (f.data.reverse.takeWhile (· ≠ '.')).reverse := by
          unfold extnameCore
          rw [if_neg hdd, hpost]
        by_cases hpre : f.data.reverse.takeWhile (· ≠ '.') = []
        · have hdot : extnameData f.data = ['.'] := by
            rw [hext, hcore, hpre]
            rfl
          have hnone : getValidExtension f = none := by
            simp [getValidExtension, hdot]
          rw [hnone]
          constructor
          · intro h; exact absurd h (by simp)
          · rintro ⟨a, b, hf, ha, hb, hnd, hee⟩
            exfalso
            have hfd : f.data = a.data ++ '.' :: b.data := by
              rw [hf]; simp [String.data_append]
            have hrv2 : f.data.reverse = b.data.reverse ++ '.' :: a.data.reverse := by
              rw [hfd]; simp
            have hmid := takeWhile_middle (· ≠ '.') b.data.reverse '.' a.data.reverse
              (fun x hx => by
                have hxn : x ≠ '.' := fun hxe => hnd (hxe ▸ List.mem_reverse.mp hx)
                simp [hxn])
              (by simp)
            have h1 := hmid.1
            rw [← hrv2, hpre] at h1
            exact hb (string_eq_of_data (by simpa using List.reverse_eq_nil_iff.mp h1.symm))
        · have hprr : (f.data.reverse.takeWhile (· ≠ '.')).reverse ≠ [] :=
            fun h0 => hpre (List.reverse_eq_nil_iff.mp h0)
          have hval : extnameData f.data =
              '.' :: (f.data.reverse.takeWhile (· ≠ '.')).reverse := by
            rw [hext, hcore]
          have hsome : getValidExtension f =
              some (String.mk
                ((f.data.reverse.takeWhile (· ≠ '.')).reverse.map Char.toLower)) := by
            simp only [getValidExtension, hval]
            rw [if_neg (by
              intro hcond
              simp only [Bool.or_eq_true, decide_eq_true_eq] at hcond
              rcases hcond with h | h
              · exact absurd h (by simp)
              · exact hprr (List.cons.inj h).2)]
            rfl
          rw [hsome]
          have hrv : f.data.reverse =
              (f.data.reverse.takeWhile (· ≠ '.')) ++ '.' :: d :: rest := by
            have h0 := List.takeWhile_append_dropWhile (· ≠ '.') f.data.reverse
            rw [hpost] at h0
            exact h0.symm
          constructor
          · intro h
            have he2 :
                e = String.mk ((f.data.reverse.takeWhile (· ≠ '.')).reverse.map Char.toLower) :=
              (Option.some.inj h).symm
            refine ⟨String.mk ((d :: rest).reverse),
              String.mk ((f.data.reverse.takeWhile (· ≠ '.')).reverse), ?_, ?_, ?_, ?_, he2⟩
            · apply string_eq_of_data
              have hfd3 := congrArg List.reverse hrv
              rw [List.reverse_reverse, List.reverse_append, List.reverse_cons] at hfd3
              rw [show (String.mk ((d :: rest).reverse) ++ "." ++
                  String.mk ((f.data.reverse.takeWhile (· ≠ '.')).reverse)).data =
                  (d :: rest).reverse ++ ['.'] ++
                  (f.data.reverse.takeWhile (· ≠ '.')).reverse from by
                simp [String.data_append]]
              exact hfd3
            · intro h0
              have h1 : ((d :: rest).reverse : List Char) = [] := congrArg String.data h0
              simp at h1
            · intro h0
              have h1 : ((f.data.reverse.takeWhile (· ≠ '.')).reverse : List Char) = [] :=
                congrArg String.data h0
              exact hpre (List.reverse_eq_nil_iff.mp h1)
            · intro hm
              have hm2 : ('.' : Char) ∈ f.data.reverse.takeWhile (· ≠ '.') :=
                List.mem_reverse.mp hm
              have := List.mem_takeWhile_imp hm2
              simp at this
          · rintro ⟨a, b, hf, ha, hb, hnd, hee⟩
            have hfd : f.data = a.data ++ '.' :: b.data := by
              rw [hf]; simp [String.data_append]
            have hrv2 : f.data.reverse = b.data.reverse ++ '.' :: a.data.reverse := by
              rw [hfd]; simp
            have hmid := takeWhile_middle (· ≠ '.') b.data.reverse '.' a.data.reverse
              (fun x hx => by
                have hxn : x ≠ '.' := fun hxe => hnd (hxe ▸ List.mem_reverse.mp hx)
                simp [hxn])
              (by simp)
            have h1 := hmid.1
            rw [← hrv2] at h1
            rw [h1, hee]
            simp

/-- Witness for C9 (amended) at a concrete two-dot filename. -/
theorem claim_C9_witness :
    getValidExtension "archive.tar.GZ" = some "gz" ∧
    ("archive.tar.GZ" : String) = "archive.tar" ++ "." ++ "GZ" := by
  constructor
  · exact (claim_C9 "archive.tar.GZ" (by decide) "gz").mpr
      ⟨"archive.tar", "GZ", by decide, by decide, by decide, by decide, by decide⟩
  · decide
